import Mathlib

/-!
Verification of the rtmp-server-poc repository against its specification.

Shallow embedding of three components:
* `Flv`   — the FLV tag muxer (`internal/flv`): `Writer.WriteHeader`,
  `Writer.WriteTag`, `Writer.WriteAudio/WriteVideo/WriteScript`,
  `makeFLVTagHeader`.
* `Auth`  — the pattern authorizer (`internal/auth`): `patternToRegex`,
  `extractVariables`, `extractPathFromTCURL`, `Authorizer.IsAuthorized`,
  `Authorizer.ExtractVariables`, `Authorizer.ValidateAuthentication`.
* `StreamM` — the stream manager and process lifecycle
  (`internal/stream`): `Manager.GetOrCreateStream`, `StreamProcess.Stop`.

Bytes are modelled as `Nat` (each value kept below 256 by construction:
Go's `byte(x)` conversion is `x % 256`).  Go `uint32` arithmetic is `Nat`
arithmetic reduced `% 2^32` exactly where the Go code truncates.
The byte sink (`io.Writer`) is modelled as an in-memory buffer (a
`List Nat` of bytes written so far, in order) whose writes always
succeed, as with `bytes.Buffer`; the Go `error` returns are mirrored by
`Except String`.
-/

namespace Flv

/-- The 13 FLV header bytes written by `Writer.WriteHeader`:
`'F','L','V', 0x01, 0x05, 0x00,0x00,0x00,0x09` followed by the leading
zero PreviousTagSize `0x00,0x00,0x00,0x00`. -/
def flvHeader : List Nat := [70, 76, 86, 1, 5, 0, 0, 0, 9, 0, 0, 0, 0]

/-- `makeFLVTagHeader(tagType, dataSize, timestamp)` from the source: an
11-byte header.  `dataSize` and `timestamp` are Go `uint32` values
(callers pass values `< 2^32`); `byte(x)` truncates to `x % 256`.
Note the source writes the three *low* size/timestamp bytes big-endian
and puts timestamp bits 24–31 in byte 7; bytes 8–10 are zero. -/
def makeFLVTagHeader (tagType : Nat) (dataSize : Nat) (timestamp : Nat) : List Nat :=
  [tagType % 256,
   dataSize >>> 16 % 256, dataSize >>> 8 % 256, dataSize % 256,
   timestamp >>> 16 % 256, timestamp >>> 8 % 256, timestamp % 256,
   timestamp >>> 24 % 256,
   0, 0, 0]

/-- `binary.BigEndian.PutUint32` into a fresh 4-byte slice. -/
def putUint32BE (v : Nat) : List Nat :=
  [v >>> 24 % 256, v >>> 16 % 256, v >>> 8 % 256, v % 256]

/-- The `flv.Writer` state: the `sync.Once` guard for the header and the
bytes written to the sink so far (the mutex serializing `WriteTag` calls
is represented by the calls being applied in sequence). -/
structure Writer where
  headerWritten : Bool
  out : List Nat
deriving DecidableEq, Repr

/-- A fresh writer as produced by `NewWriter` over an empty sink. -/
def NewWriter : Writer := { headerWritten := false, out := [] }

/-- `Writer.WriteHeader`: writes `flvHeader` only the first time
(`headerOnce.Do`); afterwards a no-op. -/
def WriteHeader (w : Writer) : Writer :=
  if w.headerWritten then w
  else { headerWritten := true, out := w.out ++ flvHeader }

/-- `Writer.WriteTag(tagType, timestamp, data)`: computes
`dataSize := uint32(len(data))`, writes the 11-byte tag header, the raw
payload, then the 4-byte big-endian `dataSize + 11` (uint32 addition).
There is no check that the payload length fits in 24 bits. The only
`error` returns in the source propagate sink write failures; the
in-memory sink never fails. -/
def WriteTag (w : Writer) (tagType : Nat) (timestamp : Nat) (data : List Nat) :
    Except String Writer :=
  let dataSize := data.length % 2 ^ 32
  let tagHeader := makeFLVTagHeader tagType dataSize timestamp
  .ok { w with out := w.out ++ tagHeader ++ data ++ putUint32BE ((dataSize + 11) % 2 ^ 32) }

/-- `Writer.WriteAudio`: header (once) then an audio tag (type 8). -/
def WriteAudio (w : Writer) (timestamp : Nat) (data : List Nat) : Except String Writer :=
  WriteTag (WriteHeader w) 8 timestamp data

/-- `Writer.WriteVideo`: header (once) then a video tag (type 9). -/
def WriteVideo (w : Writer) (timestamp : Nat) (data : List Nat) : Except String Writer :=
  WriteTag (WriteHeader w) 9 timestamp data

/-- `Writer.WriteScript`: header (once) then a script tag (type 18). -/
def WriteScript (w : Writer) (timestamp : Nat) (data : List Nat) : Except String Writer :=
  WriteTag (WriteHeader w) 18 timestamp data

/-- The byte sequence a successful `WriteTag(k, t, p)` appends to the
sink (read off from the source: tag header, payload, previous-tag-size). -/
def tagBytes (tagType : Nat) (timestamp : Nat) (data : List Nat) : List Nat :=
  makeFLVTagHeader tagType (data.length % 2 ^ 32) timestamp ++ data ++
    putUint32BE ((data.length % 2 ^ 32 + 11) % 2 ^ 32)

/-- Decoder for the FLV tag layout, used to state the round-trip
property of the muxer.  The repository itself contains no reader — the
consumer is the external transcoder — so this is the layout inverse:
kind byte; 24-bit big-endian payload length `n`; timestamp bytes 16–23,
8–15, 0–7 then 24–31; three reserved bytes; `n` payload bytes; 4-byte
big-endian trailer which must equal `n + 11`. -/
def readTag (bs : List Nat) : Option (Nat × Nat × List Nat) :=
  match bs with
  | k :: s2 :: s1 :: s0 :: t2 :: t1 :: t0 :: t3 :: r0 :: r1 :: r2 :: rest =>
    let n := s2 * 2 ^ 16 + s1 * 2 ^ 8 + s0
    let t := t3 * 2 ^ 24 + t2 * 2 ^ 16 + t1 * 2 ^ 8 + t0
    if r0 = 0 ∧ r1 = 0 ∧ r2 = 0 ∧ rest.length = n + 4 ∧
        rest.drop n = putUint32BE (n + 11) then
      some (k, t, rest.take n)
    else none
  | _ => none

end Flv

namespace Auth

/-- The opening brace character of a `\x7bname\x7d` placeholder. -/
def braceOpen : Char := Char.ofNat 123

/-- The closing brace character of a placeholder. -/
def braceClose : Char := Char.ofNat 125

/-- The character class `[a-zA-Z0-9_]` of the placeholder-name finder
regex in `patternToRegex`. -/
def isVarNameChar (c : Char) : Bool :=
  ('a' ≤ c && c ≤ 'z') || ('A' ≤ c && c ≤ 'Z') || ('0' ≤ c && c ≤ '9') || c = '_'

/-- One element of a compiled pattern: after `regexp.QuoteMeta` every
character of the pattern is a literal matcher, except each placeholder,
which `patternToRegex` rewrites to the capture group `(?P<name>[^/]+)` —
one-or-more non-`/` characters, greedy. -/
inductive PatTok where
  | lit (c : Char)
  | cap (name : String)
deriving DecidableEq, Repr

/-- Reads a placeholder body right after an opening brace: succeeds when
the input starts with a nonempty run of `[a-zA-Z0-9_]` characters
followed by the closing brace (the shape the finder regex
`\\\x7b([a-zA-Z0-9_]+)\\\x7d` accepts), returning the name and the rest. -/
def readCap (s : List Char) : Option (String × List Char) :=
  let nm := s.takeWhile isVarNameChar
  match nm, s.drop nm.length with
  | [], _ => none
  | _ :: _, c :: rest => if c = braceClose then some (String.mk nm, rest) else none
  | _ :: _, [] => none

/-- Compilation of a pattern string into matcher tokens: the leftmost,
non-overlapping occurrences of `\x7bname\x7d` (with a nonempty
`[a-zA-Z0-9_]` name) become capture tokens; every other character is a
literal (after `regexp.QuoteMeta`, which only escapes, every
non-placeholder character matches itself).  This models
`patternToRegex` on patterns without backslashes (the only case where
`QuoteMeta` is transparent to the placeholder finder).  `fuel` only
bounds the recursion; each step consumes at least one character, so any
`fuel ≥` input length computes the full tokenisation. -/
def tokenize : Nat → List Char → List PatTok
  | 0, _ => []
  | _ + 1, [] => []
  | fuel + 1, c :: rest =>
    if c = braceOpen then
      match readCap rest with
      | some (nm, rest2) => .cap nm :: tokenize fuel rest2
      | none => .lit braceOpen :: tokenize fuel rest
    else .lit c :: tokenize fuel rest

/-- The capture-group names of a compiled pattern, in order — the
`varNames` list accumulated by `patternToRegex`. -/
def capNames (toks : List PatTok) : List String :=
  toks.filterMap fun t => match t with | .cap nm => some nm | .lit _ => none

/-- `patternToRegex(pattern)`: the compiled matcher and the placeholder
names in order of appearance. -/
def patternToRegex (pattern : String) : List PatTok × List String :=
  let toks := tokenize pattern.toList.length pattern.toList
  (toks, capNames toks)

/-- Backtracking search for a greedy capture: tries widths `k, k-1, …, 1`
(longest first — the preference order of a greedy `[^/]+` under Go's
leftmost-first submatch semantics) and returns the first width whose
continuation succeeds, with the continuation's result. -/
def capSearch (f : Nat → Option (List (String × String))) :
    Nat → Option (Nat × List (String × String))
  | 0 => none
  | k + 1 =>
    match f (k + 1) with
    | some vs => some (k + 1, vs)
    | none => capSearch f k

/-- Matching a compiled pattern against a string, anchored at both ends
(the source wraps the regex in `^…$`): a literal token consumes exactly
its character; a capture token consumes a maximal-possible nonempty run
of non-`/` characters (greedy with backtracking, Go's leftmost-first
submatch semantics), recording `(name, captured)`.  Returns the capture
list in group order on success. -/
def matchToks : List PatTok → List Char → Option (List (String × String))
  | [], s => if s.isEmpty then some [] else none
  | .lit _ :: _, [] => none
  | .lit c :: ts, c2 :: s => if c2 = c then matchToks ts s else none
  | .cap nm :: ts, s =>
    match capSearch (fun k => matchToks ts (s.drop k))
        (s.takeWhile (fun c => c ≠ '/')).length with
    | some (k, vs) => some ((nm, String.mk (s.take k)) :: vs)
    | none => none

/-- `extractVariables(regexStr, varNames, tcurl)` from the source:
compiles the regex — which fails exactly when two capture groups share a
name (`regexp.Compile` rejects duplicate group names), in which case the
function returns no match — then matches and collects the named
captures.  With distinct names the Go result map is exactly the
association list of captures. -/
def extractVariables (toks : List PatTok) (varNames : List String)
    (tcurl : List Char) : Option (List (String × String)) :=
  if varNames.Nodup then matchToks toks tcurl else none

/-!
Model of the stdlib `net/url.Parse` used by `extractPathFromTCURL`.
`url.Parse` is Go standard library, absent from the repository, so the
behaviour the authorizer depends on — the `Path` field and the
parse-error cases — is modelled below function by function from the
`net/url` source: `getScheme`; query stripping at the first `?` and
fragment stripping at the first `#` (with the fragment's escapes still
validated by `setFragment`); authority splitting with
`parseAuthority`/`parseHost`, the port check and the `encodeHost`
character check; percent-escape validation and decoding; the
control-byte reject; and the error fallback in the source, which
returns the raw target verbatim.  The model works on Lean `Char` lists
and is faithful for ASCII targets (Go scans bytes; on ASCII the two
agree); IPv6 zone identifiers (`%25` inside a bracketed host) are the
one corner intentionally left out.
-/

/-- ASCII `[a-zA-Z]`. -/
def isAlphaChar (c : Char) : Bool :=
  ('a' ≤ c && c ≤ 'z') || ('A' ≤ c && c ≤ 'Z')

/-- ASCII `[0-9]`. -/
def isDigitChar (c : Char) : Bool := '0' ≤ c && c ≤ '9'

/-- The characters `getScheme` accepts after the first one besides
letters. -/
def isSchemeTailChar (c : Char) : Bool :=
  isDigitChar c || c = '+' || c = '-' || c = '.'

/-- Control bytes rejected by `url.parse` (`stringContainsCTLByte`). -/
def isCtlChar (c : Char) : Bool := c.toNat < 32 || c.toNat = 127

/-- Hex digit, as in `net/url`'s `ishex`. -/
def isHexDigit (c : Char) : Bool :=
  isDigitChar c || ('a' ≤ c && c ≤ 'f') || ('A' ≤ c && c ≤ 'F')

/-- Hex digit value, as in `net/url`'s `unhex`. -/
def hexVal (c : Char) : Nat :=
  if c ≤ '9' then c.toNat - 48 else if c ≤ 'F' then c.toNat - 55 else c.toNat - 87

/-- Outcome of `getScheme`: a parse error (colon in first position), no
scheme, or a scheme plus the remainder after the colon. -/
inductive SchemeRes where
  | err
  | noScheme
  | found (scheme rest : List Char)

/-- `getScheme` from `net/url`: letters continue a scheme; digits and
`+ - .` continue it except in first position (then the input has no
scheme); a colon ends it (an error if it comes first); any other
character means no scheme — the whole input is then used as-is. -/
def getSchemeAux : List Char → List Char → SchemeRes
  | _, [] => .noScheme
  | acc, c :: rest =>
    if isAlphaChar c then getSchemeAux (acc ++ [c]) rest
    else if isSchemeTailChar c then
      if acc.isEmpty then .noScheme else getSchemeAux (acc ++ [c]) rest
    else if c = ':' then
      if acc.isEmpty then .err else .found acc rest
    else .noScheme

/-- `unescape` in `encodePath`/`encodeFragment`/`encodeUserPassword`
mode: a `%` must be followed by two hex digits (else a parse error) and
decodes to that byte; every other character passes through. -/
def unescapePath : List Char → Option (List Char)
  | [] => some []
  | '%' :: a :: b :: rest2 =>
    if isHexDigit a && isHexDigit b then
      (unescapePath rest2).map fun t => Char.ofNat (16 * hexVal a + hexVal b) :: t
    else none
  | '%' :: _ => none
  | c :: rest => (unescapePath rest).map fun t => c :: t

/-- The characters `shouldEscape` exempts in `encodeHost` mode:
alphanumerics, the unreserved `- . _ ~`, and the extra set
(sub-delims plus `: [ ] < > "` and the quote characters) that `net/url`
allows in a host. -/
def hostCharOk (c : Char) : Bool :=
  isAlphaChar c || isDigitChar c || c = '-' || c = '.' || c = '_' || c = '~' ||
  c = '!' || c = '$' || c = '&' || c = Char.ofNat 39 || c = Char.ofNat 40 ||
  c = Char.ofNat 41 || c = '*' || c = '+' || c = ',' || c = ';' || c = '=' ||
  c = ':' || c = Char.ofNat 91 || c = Char.ofNat 93 || c = '<' || c = '>' ||
  c = Char.ofNat 34

/-- `unescape` in `encodeHost` mode: like `unescapePath`, but an ASCII
character outside `hostCharOk` is a parse error (decoded escape bytes
are not re-checked, as in the source). -/
def unescapeHost : List Char → Option (List Char)
  | [] => some []
  | '%' :: a :: b :: rest2 =>
    if isHexDigit a && isHexDigit b then
      (unescapeHost rest2).map fun t => Char.ofNat (16 * hexVal a + hexVal b) :: t
    else none
  | '%' :: _ => none
  | c :: rest =>
    if c.toNat < 128 && !hostCharOk c then none
    else (unescapeHost rest).map fun t => c :: t

/-- `validOptionalPort`: empty, or a colon followed by digits only. -/
def validOptionalPort (p : List Char) : Bool :=
  match p with
  | [] => true
  | c :: digits => c = ':' && digits.all isDigitChar

/-- `parseHost`: a bracketed host needs a closing bracket and a valid
optional port after it; otherwise everything after the last colon must
be a valid optional port; then the whole host string goes through the
`encodeHost` character and escape check. -/
def parseHost (h : List Char) : Option (List Char) :=
  if h.head? = some (Char.ofNat 91) then
    let revAfter := h.reverse.takeWhile fun c => c ≠ Char.ofNat 93
    if revAfter.length = h.length then none
    else if validOptionalPort revAfter.reverse then unescapeHost h else none
  else if h.any fun c => c = ':' then
    let port := (h.reverse.takeWhile fun c => c ≠ ':').reverse
    if validOptionalPort (':' :: port) then unescapeHost h else none
  else unescapeHost h

/-- The characters `validUserinfo` accepts. -/
def validUserinfoChar (c : Char) : Bool :=
  isAlphaChar c || isDigitChar c || c = '-' || c = '.' || c = '_' || c = ':' ||
  c = '~' || c = '!' || c = '$' || c = '&' || c = Char.ofNat 39 ||
  c = Char.ofNat 40 || c = Char.ofNat 41 || c = '*' || c = '+' || c = ',' ||
  c = ';' || c = '=' || c = '%' || c = '@'

/-- `parseAuthority`, success only (the authorizer never reads the host
value): split at the last `@`; the host must pass `parseHost`; the
userinfo, when present, must pass `validUserinfo` and carry valid
percent-escapes. -/
def parseAuthorityOk (auth : List Char) : Bool :=
  if auth.any fun c => c = '@' then
    let host := (auth.reverse.takeWhile fun c => c ≠ '@').reverse
    let userinfo := auth.take (auth.length - (host.length + 1))
    (parseHost host).isSome && userinfo.all validUserinfoChar &&
      (unescapePath userinfo).isSome
  else (parseHost auth).isSome

/-- The scheme-independent part of `url.parse` (`viaRequest = false`),
returning `Path`: the query is stripped at the first `?`; a rootless
rest is opaque when a scheme exists (`Path` empty) and otherwise must
not carry a colon in its first segment; a `//`-prefixed rest (except
`///…` with no scheme) has its authority split off at the next `/` and
validated; the remaining path is percent-unescaped (`setPath`). -/
def urlPathCore (rest0 : List Char) (hasScheme : Bool) : Option (List Char) :=
  let rest := rest0.takeWhile fun c => c ≠ '?'
  if rest.head? ≠ some '/' then
    if hasScheme then some []
    else if (rest.takeWhile fun c => c ≠ '/').any fun c => c = ':' then none
    else unescapePath rest
  else if rest.take 2 = ['/', '/'] ∧ (hasScheme ∨ ¬rest.take 3 = ['/', '/', '/']) then
    let afterSlashes := rest.drop 2
    let authority := afterSlashes.takeWhile fun c => c ≠ '/'
    let rest2 := afterSlashes.dropWhile fun c => c ≠ '/'
    if parseAuthorityOk authority then unescapePath rest2 else none
  else unescapePath rest

/-- `url.Parse`, restricted to what `extractPathFromTCURL` reads: the
`Path` on success, `none` on any parse error.  The fragment is cut at
the first `#` (its escapes still validated by `setFragment`), control
bytes are rejected, `getScheme` runs, then the core. -/
def urlParsePath (s : List Char) : Option (List Char) :=
  let beforeFrag := s.takeWhile fun c => c ≠ '#'
  let frag := (s.dropWhile fun c => c ≠ '#').drop 1
  if beforeFrag.any isCtlChar then none
  else if (unescapePath frag).isNone then none
  else
    match getSchemeAux [] beforeFrag with
    | .err => none
    | .noScheme => urlPathCore beforeFrag false
    | .found _ rest => urlPathCore rest true

/-- `extractPathFromTCURL(tcurl)` from the source: `url.Parse(tcurl)`
returning `.Path`, or — on a parse error — the input unchanged. -/
def extractPathFromTCURL (tcurl : List Char) : List Char :=
  match urlParsePath tcurl with
  | some path => path
  | none => tcurl

/-- A character a scheme may contain, bundled with the facts the
invariance theorem reads off (scheme characters are printable and are
neither `#` nor `?`). -/
def schemeCharOk (c : Char) : Bool :=
  (isAlphaChar c || isSchemeTailChar c) && !isCtlChar c && c ≠ '#' && c ≠ '?'

/-- A valid URL scheme: nonempty, a letter first, then letters, digits
and `+ - .`. -/
def validSchemeList (s : List Char) : Bool :=
  match s with
  | [] => false
  | c :: cs => isAlphaChar c && !isCtlChar c && c ≠ '#' && c ≠ '?' && cs.all schemeCharOk

/-- A plain host character: passes the `encodeHost` check and is none
of the delimiters (`/ @ : [ ] % # ?`) that would change how the
authority parses, nor a control byte. -/
def plainHostChar (c : Char) : Bool :=
  hostCharOk c && !isCtlChar c && c ≠ ':' && c ≠ Char.ofNat 91 &&
  c ≠ Char.ofNat 93 && c ≠ '/' && c ≠ '@' && c ≠ '%' && c ≠ '#' && c ≠ '?'

/-- A plain path character: no control byte and none of `? # %` (query
and fragment delimiters, escapes). -/
def plainPathChar (c : Char) : Bool :=
  !isCtlChar c && c ≠ '?' && c ≠ '#' && c ≠ '%'

/-- A target already shaped as a plain path: plain path characters, no
colon (so `getScheme` finds nothing), and not beginning with `//`
(which would parse as an authority). -/
def pathShapedTarget (u : List Char) : Bool :=
  (u.all fun c => plainPathChar c && c ≠ ':') && !(u.take 2 == ['/', '/'])

/-- The `auth.Authorizer`: the configured pattern list, immutable. -/
structure Authorizer where
  authorizedPatterns : List String

/-- The loop body shared verbatim by `IsAuthorized` and
`ExtractVariables` in the source: compile the pattern with
`patternToRegex`, then run `extractVariables` on the path. -/
def matchPatternAgainst (pattern : String) (path : List Char) :
    Option (List (String × String)) :=
  let pr := patternToRegex pattern
  extractVariables pr.1 pr.2 path

/-- `Authorizer.IsAuthorized(tcurl)`: extracts the path, then scans the
patterns in order, returning true on the first whose matcher accepts. -/
def IsAuthorized (a : Authorizer) (tcurl : String) : Bool :=
  let path := extractPathFromTCURL tcurl.toList
  a.authorizedPatterns.any fun pattern => (matchPatternAgainst pattern path).isSome

/-- `Authorizer.ExtractVariables(tcurl)`: extracts the path, then
returns the captures of the first pattern that matches (Go's
`(map, true)` / `(nil, false)` is `some` / `none`). -/
def ExtractVariables (a : Authorizer) (tcurl : String) :
    Option (List (String × String)) :=
  let path := extractPathFromTCURL tcurl.toList
  a.authorizedPatterns.findSome? fun pattern => matchPatternAgainst pattern path

/-- `Authorizer.ValidateAuthentication(vars, publishingName)`: error on
empty `publishingName`; error when a `username` capture exists and
differs from `publishingName` (case-sensitive `!=` on strings);
otherwise success. -/
def ValidateAuthentication (vars : List (String × String))
    (publishingName : String) : Except String Unit :=
  if publishingName = "" then .error "empty publishingName provided"
  else
    match vars.lookup "username" with
    | some username =>
      if username ≠ publishingName then
        .error ("extracted username " ++ username ++
          " does not match publishingName " ++ publishingName)
      else .ok ()
    | none => .ok ()

end Auth

namespace StreamM

/-- The registry-relevant state of a `stream.StreamProcess`: its
username, a snapshot of the atomic `active` flag, and `sid`, a model
token identifying the underlying subprocess instance (standing for the
`cmd`/`stdin`/`cancel`/`outputDir` handles, which the registry logic
never inspects). -/
structure StreamProcess where
  username : String
  active : Bool
  sid : Nat
deriving DecidableEq, Repr

/-- The `Manager.streams` map (`sync.Map` of username to
`*StreamProcess`), modelled as a function. -/
def Registry := String → Option StreamProcess

/-- `streams.Load`. -/
def load (reg : Registry) (u : String) : Option StreamProcess := reg u

/-- `streams.Store`. -/
def store (reg : Registry) (u : String) (sp : StreamProcess) : Registry :=
  fun v => if v = u then some sp else reg v

/-- `streams.Delete`. -/
def deleteEntry (reg : Registry) (u : String) : Registry :=
  fun v => if v = u then none else reg v

/-- `Manager.createNewStream(username, cfg)`.  Its OS effects
(`os.MkdirAll`, `cmd.StdinPipe`, `cmd.Start`) are an oracle
`createResult`: `.error e` when any of them fails — each failure path in
the source returns before a subprocess exists, so nothing is spawned —
and `.ok sid` when the spawn succeeded, `sid` naming the fresh
subprocess.  On success the source builds the `StreamProcess` and sets
`active` to true before returning it.  The second component counts
subprocesses spawned by the call. -/
def createNewStream (username : String) (createResult : Except String Nat) :
    Except String StreamProcess × Nat :=
  match createResult with
  | .error e => (.error e, 0)
  | .ok sid => (.ok ⟨username, true, sid⟩, 1)

/-- `Manager.GetOrCreateStream(username, cfg)`, sequential semantics:
`Load`; if a live entry exists return it; if an inactive entry exists
`Delete` it; then `createNewStream`, returning its error unchanged, or
`Store` the fresh stream and return it.  Result: the Go
`(*StreamProcess, error)` pair, the registry afterwards, and the number
of subprocesses spawned during the call. -/
def GetOrCreateStream (reg : Registry) (username : String)
    (createResult : Except String Nat) :
    Except String StreamProcess × Registry × Nat :=
  match load reg username with
  | some sp =>
    if sp.active then (.ok sp, reg, 0)
    else
      let reg2 := deleteEntry reg username
      match createNewStream username createResult with
      | (.error e, n) => (.error e, reg2, n)
      | (.ok sp2, n) => (.ok sp2, store reg2 username sp2, n)
  | none =>
    match createNewStream username createResult with
    | (.error e, n) => (.error e, reg, n)
    | (.ok sp2, n) => (.ok sp2, store reg username sp2, n)

/-- The teardown-relevant state of a `StreamProcess` for
`StreamProcess.Stop`: the atomic `active` flag and one counter per
teardown action performed so far — `stdin.Close()` calls, context
cancellations, bounded waits for exit (graceful, or forced `Kill` after
the timeout), and scheduled asynchronous output-directory removals. -/
structure StopState where
  active : Bool
  closes : Nat
  cancels : Nat
  waitsBounded : Nat
  removalsScheduled : Nat
deriving DecidableEq, Repr

/-- `StreamProcess.Stop(cfg)`: the atomic `active.Swap(false)` reads the
flag and clears it in one step; when the previous value was false the
call returns at once having done nothing; otherwise this call — alone —
closes stdin, cancels the context, performs the bounded wait (with
forced kill on timeout), and schedules the directory removal.  Returns
whether this call performed the teardown. -/
def Stop (s : StopState) : Bool × StopState :=
  let prev := s.active
  if prev then
    (true, { active := false, closes := s.closes + 1, cancels := s.cancels + 1,
             waitsBounded := s.waitsBounded + 1,
             removalsScheduled := s.removalsScheduled + 1 })
  else (false, { s with active := false })

/-- `n` `Stop` calls on one `StreamProcess`.  Concurrent `Stop` calls
are linearized by the atomic `Swap`; the fold applies them in that
linearization order.  Returns each call's performed-teardown result in
order, and the final state. -/
def stopTrace : Nat → StopState → List Bool × StopState
  | 0, s => ([], s)
  | n + 1, s =>
    let r := Stop s
    let rs := stopTrace n r.2
    (r.1 :: rs.1, rs.2)

/-- Program counter of one `GetOrCreateStream` execution in the
interleaved model of claim C9.  The shared `sync.Map` operations
(`Load`, `Delete`, `Store`) are individually atomic, but nothing makes
the load-check/create/store sequence atomic; `createNewStream` touches
no shared state, so it is one step. -/
inductive TPc where
  | atLoad
  | atDelete
  | atCreate
  | atStore (sid : Nat)
  | finished (sid : Nat)
deriving DecidableEq, Repr

/-- Shared + per-thread state for two interleaved
`GetOrCreateStream(u, cfg)` calls with the same username `u`: the
registry content for `u` (subprocess token and its active flag), the
total number of subprocesses spawned, a fresh-token counter, and both
program counters. -/
structure C9State where
  entry : Option (Nat × Bool)
  spawned : Nat
  nextSid : Nat
  pc1 : TPc
  pc2 : TPc
deriving DecidableEq, Repr

/-- One atomic step of one thread of `GetOrCreateStream`, following the
source line by line: `Load` hit on a live entry returns it; hit on a
dead entry goes to `Delete`; miss goes to create; create spawns a fresh
subprocess (here assumed to succeed); `Store` publishes the entry and
returns. -/
def threadStep (entry : Option (Nat × Bool)) (spawned nextSid : Nat) (pc : TPc) :
    Option (Nat × Bool) × Nat × Nat × TPc :=
  match pc with
  | .atLoad =>
    match entry with
    | some (sid, true) => (entry, spawned, nextSid, .finished sid)
    | some (_, false) => (entry, spawned, nextSid, .atDelete)
    | none => (entry, spawned, nextSid, .atCreate)
  | .atDelete => (none, spawned, nextSid, .atCreate)
  | .atCreate => (entry, spawned + 1, nextSid + 1, .atStore nextSid)
  | .atStore sid => (some (sid, true), spawned, nextSid, .finished sid)
  | .finished sid => (entry, spawned, nextSid, .finished sid)

/-- One interleaving step: scheduler picks thread 1 (`false`) or
thread 2 (`true`). -/
def sysStep (s : C9State) (who : Bool) : C9State :=
  if who then
    match threadStep s.entry s.spawned s.nextSid s.pc2 with
    | (e, sp, ns, pc) => { s with entry := e, spawned := sp, nextSid := ns, pc2 := pc }
  else
    match threadStep s.entry s.spawned s.nextSid s.pc1 with
    | (e, sp, ns, pc) => { s with entry := e, spawned := sp, nextSid := ns, pc1 := pc }

/-- Run a schedule (list of scheduler choices). -/
def runSchedule (s : C9State) (sched : List Bool) : C9State :=
  sched.foldl sysStep s

/-- Both threads about to call `GetOrCreateStream` for the same (absent)
username on a fresh manager. -/
def c9Init : C9State :=
  { entry := none, spawned := 0, nextSid := 0, pc1 := .atLoad, pc2 := .atLoad }

end StreamM

namespace Flv

/-- One call in a sequence of tag writes on a `Writer`: the three public
write entry points of the muxer. -/
inductive WriteOp where
  | audio (t : Nat) (d : List Nat)
  | video (t : Nat) (d : List Nat)
  | script (t : Nat) (d : List Nat)
deriving DecidableEq, Repr

/-- Dispatch one write call. -/
def runOp (w : Writer) : WriteOp → Except String Writer
  | .audio t d => WriteAudio w t d
  | .video t d => WriteVideo w t d
  | .script t d => WriteScript w t d

/-- A sequence of write calls on one writer (the per-writer mutex
serializes them), stopping at the first error as the caller would. -/
def runOps (w : Writer) : List WriteOp → Except String Writer
  | [] => .ok w
  | op :: ops =>
    match runOp w op with
    | .ok w2 => runOps w2 ops
    | .error e => .error e

/-- The kind code a write call uses. -/
def opKind : WriteOp → Nat
  | .audio _ _ => 8
  | .video _ _ => 9
  | .script _ _ => 18

/-- The tag bytes a write call appends (beyond the one-time header). -/
def opTagBytes : WriteOp → List Nat
  | .audio t d => tagBytes 8 t d
  | .video t d => tagBytes 9 t d
  | .script t d => tagBytes 18 t d

end Flv

/-! ## Theorems -/

/-- Helper for C1: `WriteTag` at any payload of length exactly `2^24`
succeeds and emits a zero length field. -/
theorem writeTag_truncates_general (d : List Nat) (h : d.length = 2 ^ 24) :
    Flv.WriteTag Flv.NewWriter 9 0 d =
      .ok { headerWritten := false,
            out := [9, 0, 0, 0, 0, 0, 0, 0, 0, 0, 0] ++ d ++ [1, 0, 0, 11] } := by
  simp only [Flv.WriteTag, Flv.NewWriter, Flv.makeFLVTagHeader, Flv.putUint32BE,
    Nat.shiftRight_eq_div_pow, h]
  norm_num

/-- C1: the spec demands that a payload whose length does not fit in 24
bits (`≥ 2^24`) make `WriteTag` fail with an error and write no
truncated length field.  The code has no such check: at payload length
`2^24` the call succeeds (`.ok`, no error) and writes `[0, 0, 0]` as the
3-byte length field — the silently truncated value of `2^24` — followed
by the full payload and the trailer bytes of `2^24 + 11`. -/
theorem writeTag_truncates_oversized_payload :
    Flv.WriteTag Flv.NewWriter 9 0 (List.replicate (2 ^ 24) 0) =
      .ok { headerWritten := false,
            out := [9, 0, 0, 0, 0, 0, 0, 0, 0, 0, 0] ++
              List.replicate (2 ^ 24) 0 ++ [1, 0, 0, 11] } ∧
    (List.replicate (2 ^ 24) (0 : Nat)).length ≠ 0 * 2 ^ 16 + 0 * 2 ^ 8 + 0 := by
  refine ⟨writeTag_truncates_general _ (List.length_replicate _ _), ?_⟩
  rw [List.length_replicate]
  norm_num

/-- C2: a successful `WriteTag(k, t, p)` with kind `k ∈ {8, 9, 18}`,
32-bit timestamp `t`, and payload length `N < 2^24` appends to the sink
exactly: the kind byte; the 3-byte big-endian `N`; timestamp bits
16–23, 8–15, 0–7 then 24–31; three zero bytes; the payload verbatim;
and the 4-byte big-endian trailer `11 + N` — and decoding those bytes
recovers the identical kind, timestamp, and payload. -/
theorem writeTag_layout_roundtrip (w : Flv.Writer) (k t : Nat) (p : List Nat)
    (hk : k = 8 ∨ k = 9 ∨ k = 18) (ht : t < 2 ^ 32) (hp : p.length < 2 ^ 24) :
    Flv.WriteTag w k t p =
      .ok { headerWritten := w.headerWritten, out := w.out ++ Flv.tagBytes k t p } ∧
    Flv.tagBytes k t p =
      [k] ++
      [p.length / 2 ^ 16, p.length / 2 ^ 8 % 2 ^ 8, p.length % 2 ^ 8] ++
      [t / 2 ^ 16 % 2 ^ 8, t / 2 ^ 8 % 2 ^ 8, t % 2 ^ 8, t / 2 ^ 24] ++
      [0, 0, 0] ++ p ++
      [(11 + p.length) / 2 ^ 24, (11 + p.length) / 2 ^ 16 % 2 ^ 8,
       (11 + p.length) / 2 ^ 8 % 2 ^ 8, (11 + p.length) % 2 ^ 8] ∧
    Flv.readTag (Flv.tagBytes k t p) = some (k, t, p) := by
  have hp32 : p.length % 2 ^ 32 = p.length := Nat.mod_eq_of_lt (by omega)
  have htag : Flv.tagBytes k t p =
      [k] ++
      [p.length / 2 ^ 16, p.length / 2 ^ 8 % 2 ^ 8, p.length % 2 ^ 8] ++
      [t / 2 ^ 16 % 2 ^ 8, t / 2 ^ 8 % 2 ^ 8, t % 2 ^ 8, t / 2 ^ 24] ++
      [0, 0, 0] ++ p ++
      [(11 + p.length) / 2 ^ 24, (11 + p.length) / 2 ^ 16 % 2 ^ 8,
       (11 + p.length) / 2 ^ 8 % 2 ^ 8, (11 + p.length) % 2 ^ 8] := by
    simp only [Flv.tagBytes, Flv.makeFLVTagHeader, Flv.putUint32BE,
      Nat.shiftRight_eq_div_pow, hp32]
    norm_num
    constructor
    · omega
    refine ⟨?_, ?_, ?_, ?_, ?_⟩ <;> omega
  refine ⟨?_, htag, ?_⟩
  · simp only [Flv.WriteTag, Flv.tagBytes, hp32, List.append_assoc]
  · have hn : p.length / 2 ^ 16 * 2 ^ 16 + p.length / 2 ^ 8 % 2 ^ 8 * 2 ^ 8 +
        p.length % 2 ^ 8 = p.length := by omega
    have htt : t / 2 ^ 24 * 2 ^ 24 + t / 2 ^ 16 % 2 ^ 8 * 2 ^ 16 +
        t / 2 ^ 8 % 2 ^ 8 * 2 ^ 8 + t % 2 ^ 8 = t := by omega
    have hlist : [(11 + p.length) / 2 ^ 24, (11 + p.length) / 2 ^ 16 % 2 ^ 8,
        (11 + p.length) / 2 ^ 8 % 2 ^ 8, (11 + p.length) % 2 ^ 8] =
        [(p.length + 11) / 2 ^ 24 % 256, (p.length + 11) / 2 ^ 16 % 256,
         (p.length + 11) / 2 ^ 8 % 256, (p.length + 11) % 256] := by
      simp only [List.cons.injEq, and_true]
      refine ⟨?_, ?_, ?_, ?_⟩ <;> omega
    rw [htag]
    simp only [List.cons_append, List.nil_append, Flv.readTag, Flv.putUint32BE,
      Nat.shiftRight_eq_div_pow]
    rw [hn, htt, hlist, List.drop_left, List.take_left]
    simp

/-- Witness for C2 at kind 9 (video), timestamp 12345, payload
`[1, 2, 3]` on a fresh writer. -/
theorem writeTag_layout_roundtrip_witness :
    (((9 : Nat) = 8 ∨ (9 : Nat) = 9 ∨ (9 : Nat) = 18) ∧ (12345 : Nat) < 2 ^ 32 ∧
      ([1, 2, 3] : List Nat).length < 2 ^ 24) ∧
    Flv.readTag (Flv.tagBytes 9 12345 [1, 2, 3]) = some (9, 12345, [1, 2, 3]) :=
  ⟨⟨Or.inr (Or.inl rfl), by decide, by decide⟩,
   (writeTag_layout_roundtrip Flv.NewWriter 9 12345 [1, 2, 3] (Or.inr (Or.inl rfl))
      (by decide) (by decide)).2.2⟩

/-- Helper for C8: once the header guard is set, a sequence of write
calls appends exactly the tags, and the guard stays set. -/
theorem runOps_headerWritten (ops : List Flv.WriteOp) :
    ∀ out : List Nat, Flv.runOps { headerWritten := true, out := out } ops =
      .ok { headerWritten := true, out := out ++ (ops.map Flv.opTagBytes).flatten } := by
  induction ops with
  | nil => intro out; simp [Flv.runOps]
  | cons op ops ih =>
    intro out
    cases op <;>
      simp [Flv.runOps, Flv.runOp, Flv.WriteAudio, Flv.WriteVideo, Flv.WriteScript,
        Flv.WriteHeader, Flv.WriteTag, Flv.tagBytes, Flv.opTagBytes, ih,
        List.append_assoc]

/-- C8: on a fresh writer, the first of any sequence of
`WriteAudio`/`WriteVideo`/`WriteScript` calls emits the container header
followed by its tag and every later call emits only its tag — the
output is the header followed by the tags in order, the header
appearing exactly once, and not at all when no tag is written; moreover
`WriteHeader` on a writer whose header is already out is a no-op. -/
theorem header_once (ops : List Flv.WriteOp) :
    Flv.runOps Flv.NewWriter ops =
      .ok { headerWritten := !ops.isEmpty,
            out := if ops.isEmpty then []
                   else Flv.flvHeader ++ (ops.map Flv.opTagBytes).flatten } ∧
    ∀ w : Flv.Writer, w.headerWritten = true → Flv.WriteHeader w = w := by
  constructor
  · cases ops with
    | nil => simp [Flv.runOps, Flv.NewWriter]
    | cons op ops =>
      have h1 : Flv.runOp Flv.NewWriter op =
          .ok { headerWritten := true, out := Flv.flvHeader ++ Flv.opTagBytes op } := by
        cases op <;>
          simp [Flv.runOp, Flv.WriteAudio, Flv.WriteVideo, Flv.WriteScript,
            Flv.WriteHeader, Flv.NewWriter, Flv.WriteTag, Flv.tagBytes,
            Flv.opTagBytes, List.append_assoc]
      simp [Flv.runOps, h1, runOps_headerWritten, List.append_assoc]
  · intro w hw
    simp [Flv.WriteHeader, hw]

/-- Witness for C8: one video write on a fresh writer, and a no-op
header call on a writer with the header already out. -/
theorem header_once_witness :
    Flv.runOps Flv.NewWriter [Flv.WriteOp.video 5 [1]] =
      .ok { headerWritten := !([Flv.WriteOp.video 5 [1]] : List Flv.WriteOp).isEmpty,
            out := if ([Flv.WriteOp.video 5 [1]] : List Flv.WriteOp).isEmpty then []
                   else Flv.flvHeader ++
                     ([Flv.WriteOp.video 5 [1]].map Flv.opTagBytes).flatten } ∧
    Flv.WriteHeader { headerWritten := true, out := [] } =
      { headerWritten := true, out := [] } :=
  ⟨(header_once [Flv.WriteOp.video 5 [1]]).1,
   (header_once [Flv.WriteOp.video 5 [1]]).2 { headerWritten := true, out := [] } rfl⟩

/-- C5: `ValidateAuthentication(vars, p)` succeeds exactly when the
publishing identity `p` is nonempty and any `username` capture equals
`p` under case-sensitive string equality; in particular it errors on an
empty identity, errors on a mismatched `username`, and succeeds when no
`username` capture exists. -/
theorem validateAuthentication_spec (vars : List (String × String)) (p : String) :
    Auth.ValidateAuthentication vars p = .ok () ↔
      p ≠ "" ∧ ∀ u, vars.lookup "username" = some u → u = p := by
  unfold Auth.ValidateAuthentication
  by_cases hp : p = ""
  · simp [hp]
  · simp only [hp, if_false, if_neg, not_false_iff]
    cases h : vars.lookup "username" with
    | none => simp [h, hp]
    | some u =>
      by_cases hu : u = p
      · simp [h, hu, hp]
      · simp [h, hu, hp]

/-- Witness for C5: the spec's own examples — matching username
succeeds, mismatched username fails, empty identity fails, and no
username capture succeeds. -/
theorem validateAuthentication_spec_witness :
    Auth.ValidateAuthentication [("username", "johndoe")] "johndoe" = .ok () ∧
    Auth.ValidateAuthentication [("username", "johndoe")] "alice" ≠ .ok () ∧
    Auth.ValidateAuthentication [("username", "johndoe")] "" ≠ .ok () ∧
    Auth.ValidateAuthentication [("app", "test")] "anyone" = .ok () := by
  refine ⟨?_, ?_, ?_, ?_⟩
  · exact (validateAuthentication_spec [("username", "johndoe")] "johndoe").mpr
      ⟨by decide, fun u hu => by simp [List.lookup] at hu; exact hu.symm⟩
  · intro hok
    have h := (validateAuthentication_spec [("username", "johndoe")] "alice").mp hok
    have := h.2 "johndoe" (by simp [List.lookup])
    simp at this
  · intro hok
    have h := (validateAuthentication_spec [("username", "johndoe")] "").mp hok
    exact h.1 rfl
  · exact (validateAuthentication_spec [("app", "test")] "anyone").mpr
      ⟨by decide, fun u hu => by simp [List.lookup] at hu⟩

/-- Helper shared by the authorizer agreement theorems: a `findSome?`
over a list is `some`-valued exactly when some element's function value
is `some`-valued. -/
theorem findSome?_isSome_iff {α β : Type} (f : α → Option β) (l : List α) :
    (l.findSome? f).isSome = true ↔ ∃ x ∈ l, (f x).isSome = true := by
  induction l with
  | nil => simp [List.findSome?]
  | cons x l ih =>
    rw [List.findSome?_cons]
    cases h : f x with
    | none => simp [h, ih]
    | some b => simp [h]

/-- C10: `IsAuthorized` and `ExtractVariables` agree on every target:
`IsAuthorized` is true exactly when `ExtractVariables` reports a match —
both scan the same compiled pattern list over the same extracted path. -/
theorem isAuthorized_iff_extractVariables (a : Auth.Authorizer) (t : String) :
    Auth.IsAuthorized a t = true ↔ (Auth.ExtractVariables a t).isSome = true := by
  simp only [Auth.IsAuthorized, Auth.ExtractVariables, List.any_eq_true,
    findSome?_isSome_iff]

/-- Witness for C10 at the default configured pattern and the spec's
example target. -/
theorem isAuthorized_iff_extractVariables_witness :
    Auth.IsAuthorized ⟨["/live/{app}/{username}"]⟩ "rtmp://host/live/test/johndoe" = true :=
  (isAuthorized_iff_extractVariables ⟨["/live/{app}/{username}"]⟩
    "rtmp://host/live/test/johndoe").mpr (by decide)

/-- Helper for C4: with no `%` in sight, `setPath` keeps the path
verbatim. -/
theorem unescapePath_plain (l : List Char) (h : ∀ x ∈ l, x ≠ '%') :
    Auth.unescapePath l = some l := by
  induction l with
  | nil => rfl
  | cons c rest ih =>
    have hc : c ≠ '%' := h c (List.mem_cons_self c rest)
    simp [Auth.unescapePath, hc, ih fun x hx => h x (List.mem_cons_of_mem c hx)]

/-- Helper for C4: a host of plain host characters passes the
`encodeHost` check unchanged. -/
theorem unescapeHost_plain (l : List Char) (h : ∀ x ∈ l, Auth.plainHostChar x = true) :
    Auth.unescapeHost l = some l := by
  induction l with
  | nil => rfl
  | cons c rest ih =>
    have hc := h c (List.mem_cons_self c rest)
    simp only [Auth.plainHostChar, Bool.and_eq_true, decide_eq_true_eq] at hc
    have hok : Auth.hostCharOk c = true := hc.1.1.1.1.1.1.1.1.1
    have hpct : c ≠ '%' := hc.1.1.2
    simp [Auth.unescapeHost, hpct, hok,
      ih fun x hx => h x (List.mem_cons_of_mem c hx)]

/-- Helper for C4: `getScheme` consumes a valid scheme up to the colon. -/
theorem getSchemeAux_found (sch : List Char) :
    ∀ acc r, acc.isEmpty = false →
      (∀ c ∈ sch, (Auth.isAlphaChar c || Auth.isSchemeTailChar c) = true) →
      Auth.getSchemeAux acc (sch ++ ':' :: r) = .found (acc ++ sch) r := by
  induction sch with
  | nil =>
    intro acc r hacc _
    have h1 : Auth.isAlphaChar ':' = false := by decide
    have h2 : Auth.isSchemeTailChar ':' = false := by decide
    simp [Auth.getSchemeAux, hacc, h1, h2]
  | cons c cs ih =>
    intro acc r hacc hall
    have hc := hall c (List.mem_cons_self c cs)
    have hrest := fun x hx => hall x (List.mem_cons_of_mem c hx)
    have hnemp : (acc ++ [c]).isEmpty = false := by simp
    simp only [Bool.or_eq_true] at hc
    cases ha : Auth.isAlphaChar c with
    | true =>
      simp only [List.cons_append, Auth.getSchemeAux, ha, if_true, List.append_eq]
      rw [ih (acc ++ [c]) r hnemp hrest]
      simp
    | false =>
      have htail : Auth.isSchemeTailChar c = true := by
        rcases hc with h | h
        · rw [ha] at h; cases h
        · exact h
      simp only [List.cons_append, Auth.getSchemeAux, ha, htail, hacc,
        Bool.false_eq_true, if_false, if_true, List.append_eq]
      rw [ih (acc ++ [c]) r hnemp hrest]
      simp

/-- Helper for C4: with no colon anywhere, `getScheme` finds no scheme,
whatever was accumulated. -/
theorem getSchemeAux_noScheme (l : List Char) :
    ∀ acc, (∀ c ∈ l, c ≠ ':') → Auth.getSchemeAux acc l = .noScheme := by
  induction l with
  | nil => intro acc _; rfl
  | cons c cs ih =>
    intro acc h
    have hc : c ≠ ':' := h c (List.mem_cons_self c cs)
    have hrest := fun x hx => h x (List.mem_cons_of_mem c hx)
    cases ha : Auth.isAlphaChar c with
    | true =>
      simp only [Auth.getSchemeAux, ha, if_true]
      exact ih (acc ++ [c]) hrest
    | false =>
      cases ht : Auth.isSchemeTailChar c with
      | true =>
        simp only [Auth.getSchemeAux, ha, ht, Bool.false_eq_true, if_false, if_true]
        cases hacc : acc.isEmpty with
        | true => simp
        | false =>
          simp only [Bool.false_eq_true, if_false]
          exact ih (acc ++ [c]) hrest
      | false =>
        simp [Auth.getSchemeAux, ha, ht, hc]

/-- Helper for C4: `takeWhile`/`dropWhile` split a list at its first
character failing the predicate. -/
theorem takeWhile_middle (p : Char → Bool) (c : Char) (l2 : List Char) :
    ∀ l1 : List Char, (∀ x ∈ l1, p x = true) → p c = false →
      (l1 ++ c :: l2).takeWhile p = l1 ∧ (l1 ++ c :: l2).dropWhile p = c :: l2 := by
  intro l1
  induction l1 with
  | nil =>
    intro _ hc
    simp [List.takeWhile_cons, List.dropWhile_cons, hc]
  | cons d l1 ih =>
    intro h1 hc
    have hd := h1 d (List.mem_cons_self d l1)
    obtain ⟨ht, hdrop⟩ := ih (fun x hx => h1 x (List.mem_cons_of_mem d hx)) hc
    simp [List.takeWhile_cons, List.dropWhile_cons, hd, ht, hdrop]

/-- Helper for C4: the authority-form core at `//host/path…` with a
plain host yields exactly the path after the authority. -/
theorem urlPathCore_structured (host rest : List Char)
    (hh : ∀ x ∈ host, Auth.plainHostChar x = true)
    (hr : ∀ x ∈ rest, Auth.plainPathChar x = true) :
    Auth.urlPathCore ('/' :: '/' :: (host ++ '/' :: rest)) true = some ('/' :: rest) := by
  have hhostF : ∀ x ∈ host,
      Auth.hostCharOk x = true ∧ Auth.isCtlChar x = false ∧ x ≠ ':' ∧
      x ≠ Char.ofNat 91 ∧ x ≠ Char.ofNat 93 ∧ x ≠ '/' ∧ x ≠ '@' ∧ x ≠ '%' ∧
      x ≠ '#' ∧ x ≠ '?' := by
    intro x hx
    have := hh x hx
    simp only [Auth.plainHostChar, Bool.and_eq_true, Bool.not_eq_true',
      decide_eq_true_eq] at this
    exact ⟨this.1.1.1.1.1.1.1.1.1, this.1.1.1.1.1.1.1.1.2, this.1.1.1.1.1.1.1.2,
      this.1.1.1.1.1.1.2, this.1.1.1.1.1.2, this.1.1.1.1.2, this.1.1.1.2,
      this.1.1.2, this.1.2, this.2⟩
  have hrestF : ∀ x ∈ rest,
      Auth.isCtlChar x = false ∧ x ≠ '?' ∧ x ≠ '#' ∧ x ≠ '%' := by
    intro x hx
    have := hr x hx
    simp only [Auth.plainPathChar, Bool.and_eq_true, Bool.not_eq_true',
      decide_eq_true_eq] at this
    exact ⟨this.1.1.1, this.1.1.2, this.1.2, this.2⟩
  have hq : ('/' :: '/' :: (host ++ '/' :: rest)).takeWhile
      (fun c => decide (c ≠ '?')) = '/' :: '/' :: (host ++ '/' :: rest) := by
    refine List.takeWhile_eq_self_iff.mpr ?_
    intro x hx
    simp only [decide_eq_true_eq]
    simp only [List.mem_cons, List.mem_append] at hx
    rcases hx with rfl | rfl | hx | rfl | hx
    · decide
    · decide
    · exact (hhostF x hx).2.2.2.2.2.2.2.2.2
    · decide
    · exact (hrestF x hx).2.1
  have hsplit := takeWhile_middle (fun c => decide (c ≠ '/')) '/' rest host
    (fun x hx => by simp [(hhostF x hx).2.2.2.2.2.1]) (by simp)
  have hauth : Auth.parseAuthorityOk host = true := by
    have hat : (host.any fun c => c = '@') = false :=
      List.any_eq_false.mpr fun x hx => by simp [(hhostF x hx).2.2.2.2.2.2.1]
    have hcol : (host.any fun c => c = ':') = false :=
      List.any_eq_false.mpr fun x hx => by simp [(hhostF x hx).2.2.1]
    have hhead : ¬(host.head? = some (Char.ofNat 91)) := by
      cases host with
      | nil => simp
      | cons a b =>
        simp only [List.head?_cons, Option.some.injEq]
        exact (hhostF a (List.mem_cons_self a b)).2.2.2.1
    simp only [Auth.parseAuthorityOk, hat, Bool.false_eq_true, if_false,
      Auth.parseHost, hhead, hcol, if_neg]
    rw [unescapeHost_plain host hh]
    rfl
  have hpath : Auth.unescapePath ('/' :: rest) = some ('/' :: rest) := by
    refine unescapePath_plain _ ?_
    intro x hx
    rcases List.mem_cons.mp hx with rfl | hx
    · decide
    · exact (hrestF x hx).2.2.2
  simp only [Auth.urlPathCore]
  rw [hq]
  rw [if_neg (show ¬(('/' :: '/' :: (host ++ '/' :: rest)).head? ≠ some '/') from
    fun hcon => hcon rfl)]
  rw [if_pos ⟨rfl, Or.inl trivial⟩]
  simp only [List.drop_succ_cons, List.drop_zero]
  rw [hsplit.1, hsplit.2, hauth]
  simp only [if_true]
  exact hpath

/-- Helper for C4: `url.Parse` on `scheme://host/rest` with a valid
scheme, a plain host and a plain path succeeds with path `/rest` —
independent of which scheme and host. -/
theorem urlParsePath_structured (sch host rest : List Char)
    (hs : Auth.validSchemeList sch = true)
    (hh : ∀ x ∈ host, Auth.plainHostChar x = true)
    (hr : ∀ x ∈ rest, Auth.plainPathChar x = true) :
    Auth.urlParsePath (sch ++ ':' :: '/' :: '/' :: (host ++ '/' :: rest)) =
      some ('/' :: rest) := by
  have hcore := urlPathCore_structured host rest hh hr
  obtain ⟨c0, cs, rfl⟩ : ∃ c0 cs, sch = c0 :: cs := by
    cases sch with
    | nil => simp [Auth.validSchemeList] at hs
    | cons a b => exact ⟨a, b, rfl⟩
  simp only [Auth.validSchemeList, Bool.and_eq_true, Bool.not_eq_true',
    decide_eq_true_eq] at hs
  have hcs := List.all_eq_true.mp hs.2
  have hschF : ∀ x ∈ c0 :: cs,
      (Auth.isAlphaChar x || Auth.isSchemeTailChar x) = true ∧
      Auth.isCtlChar x = false ∧ x ≠ '#' ∧ x ≠ '?' := by
    intro x hx
    rcases List.mem_cons.mp hx with rfl | hx2
    · exact ⟨by simp [hs.1.1.1.1], hs.1.1.1.2, hs.1.1.2, hs.1.2⟩
    · have := hcs x hx2
      simp only [Auth.schemeCharOk, Bool.and_eq_true, Bool.not_eq_true',
        decide_eq_true_eq] at this
      exact ⟨this.1.1.1, this.1.1.2, this.1.2, this.2⟩
  have hhostF : ∀ x ∈ host, Auth.isCtlChar x = false ∧ x ≠ '#' := by
    intro x hx
    have := hh x hx
    simp only [Auth.plainHostChar, Bool.and_eq_true, Bool.not_eq_true',
      decide_eq_true_eq] at this
    exact ⟨this.1.1.1.1.1.1.1.1.2, this.1.2⟩
  have hrestF : ∀ x ∈ rest, Auth.isCtlChar x = false ∧ x ≠ '#' := by
    intro x hx
    have := hr x hx
    simp only [Auth.plainPathChar, Bool.and_eq_true, Bool.not_eq_true',
      decide_eq_true_eq] at this
    exact ⟨this.1.1.1, this.1.2⟩
  have hLfacts : ∀ x ∈ (c0 :: cs) ++ ':' :: '/' :: '/' :: (host ++ '/' :: rest),
      x ≠ '#' ∧ Auth.isCtlChar x = false := by
    intro x hx
    simp only [List.mem_append, List.mem_cons] at hx
    rcases hx with hx | rfl | rfl | rfl | hx | rfl | hx
    · exact ⟨(hschF x (by simpa using hx)).2.2.1, (hschF x (by simpa using hx)).2.1⟩
    · exact ⟨by decide, by decide⟩
    · exact ⟨by decide, by decide⟩
    · exact ⟨by decide, by decide⟩
    · exact ⟨(hhostF x hx).2, (hhostF x hx).1⟩
    · exact ⟨by decide, by decide⟩
    · exact ⟨(hrestF x hx).2, (hrestF x hx).1⟩
  have htake : ((c0 :: cs) ++ ':' :: '/' :: '/' :: (host ++ '/' :: rest)).takeWhile
      (fun c => decide (c ≠ '#')) =
      (c0 :: cs) ++ ':' :: '/' :: '/' :: (host ++ '/' :: rest) :=
    List.takeWhile_eq_self_iff.mpr fun x hx => by simp [(hLfacts x hx).1]
  have hdrop : ((c0 :: cs) ++ ':' :: '/' :: '/' :: (host ++ '/' :: rest)).dropWhile
      (fun c => decide (c ≠ '#')) = [] :=
    List.dropWhile_eq_nil_iff.mpr fun x hx => by simp [(hLfacts x hx).1]
  have hctl : ((c0 :: cs) ++ ':' :: '/' :: '/' :: (host ++ '/' :: rest)).any
      Auth.isCtlChar = false :=
    List.any_eq_false.mpr fun x hx => by simp [(hLfacts x hx).2]
  have hscheme : Auth.getSchemeAux []
      ((c0 :: cs) ++ ':' :: '/' :: '/' :: (host ++ '/' :: rest)) =
      .found (c0 :: cs) ('/' :: '/' :: (host ++ '/' :: rest)) := by
    simp only [List.cons_append, Auth.getSchemeAux, hs.1.1.1.1, if_true,
      List.append_eq, List.nil_append]
    rw [getSchemeAux_found cs [c0] _ (by simp)
      (fun x hx => (hschF x (List.mem_cons_of_mem c0 hx)).1)]
    simp
  simp only [Auth.urlParsePath]
  rw [htake, hdrop, hctl, hscheme]
  simp only [Bool.false_eq_true, if_false, List.drop_nil, Auth.unescapePath,
    Option.isNone_some, if_neg]
  exact hcore

/-- Helper for C4: a target already shaped as a plain path parses with
`Path` equal to the target itself. -/
theorem urlParsePath_pathShaped (u : List Char)
    (h : Auth.pathShapedTarget u = true) :
    Auth.urlParsePath u = some u := by
  simp only [Auth.pathShapedTarget, Bool.and_eq_true, List.all_eq_true,
    Bool.not_eq_true', beq_eq_false_iff_ne, ne_eq] at h
  have huF : ∀ x ∈ u, Auth.isCtlChar x = false ∧ x ≠ '?' ∧ x ≠ '#' ∧ x ≠ '%' ∧
      x ≠ ':' := by
    intro x hx
    have := h.1 x hx
    simp only [Auth.plainPathChar, Bool.and_eq_true, Bool.not_eq_true',
      decide_eq_true_eq] at this
    exact ⟨this.1.1.1.1, this.1.1.1.2, this.1.1.2, this.1.2, this.2⟩
  have htake : u.takeWhile (fun c => decide (c ≠ '#')) = u :=
    List.takeWhile_eq_self_iff.mpr fun x hx => by simp [(huF x hx).2.2.1]
  have hdrop : u.dropWhile (fun c => decide (c ≠ '#')) = [] :=
    List.dropWhile_eq_nil_iff.mpr fun x hx => by simp [(huF x hx).2.2.1]
  have hctl : u.any Auth.isCtlChar = false :=
    List.any_eq_false.mpr fun x hx => by simp [(huF x hx).1]
  have hscheme : Auth.getSchemeAux [] u = .noScheme :=
    getSchemeAux_noScheme u [] fun x hx => (huF x hx).2.2.2.2
  have hq : u.takeWhile (fun c => decide (c ≠ '?')) = u :=
    List.takeWhile_eq_self_iff.mpr fun x hx => by simp [(huF x hx).2.1]
  have hpath : Auth.unescapePath u = some u :=
    unescapePath_plain u fun x hx => (huF x hx).2.2.2.1
  simp only [Auth.urlParsePath]
  rw [htake, hdrop, hctl, hscheme]
  simp only [Bool.false_eq_true, if_false, List.drop_nil, Auth.unescapePath,
    Option.isNone_some, if_neg]
  simp only [Auth.urlPathCore]
  rw [hq]
  by_cases hhead : u.head? = some '/'
  · rw [if_neg (fun hcon => hcon hhead)]
    rw [if_neg (fun hcon => h.2 hcon.1)]
    exact hpath
  · rw [if_pos hhead]
    have hseg : ((u.takeWhile fun c => decide (c ≠ '/')).any fun c => c = ':') =
        false := by
      refine List.any_eq_false.mpr ?_
      intro x hx
      have hxu : x ∈ u := (List.takeWhile_sublist _).subset hx
      simp [(huF x hxu).2.2.2.2]
    simp only [Bool.false_eq_true, if_false, hseg]
    exact hpath

/-- C4: `IsAuthorized(target)` is true exactly when some configured
pattern's compiled matcher accepts the path component of the target;
for a structured target `scheme://host/rest` — valid scheme, plain
host, plain path — neither the scheme nor the host affects the result;
an already-path-shaped target (plain path characters, no colon, not
`//`-prefixed) is matched verbatim; and with an empty pattern list
every target is unauthorized. -/
theorem isAuthorized_spec (a : Auth.Authorizer) (t : String) :
    (Auth.IsAuthorized a t = true ↔
      ∃ pat ∈ a.authorizedPatterns,
        (Auth.matchPatternAgainst pat (Auth.extractPathFromTCURL t.toList)).isSome = true) ∧
    (∀ s1 s2 h1 h2 rest : String,
      Auth.validSchemeList s1.toList = true → Auth.validSchemeList s2.toList = true →
      (∀ x ∈ h1.toList, Auth.plainHostChar x = true) →
      (∀ x ∈ h2.toList, Auth.plainHostChar x = true) →
      (∀ x ∈ rest.toList, Auth.plainPathChar x = true) →
      Auth.IsAuthorized a (s1 ++ "://" ++ h1 ++ "/" ++ rest) =
        Auth.IsAuthorized a (s2 ++ "://" ++ h2 ++ "/" ++ rest)) ∧
    (∀ u : String, Auth.pathShapedTarget u.toList = true →
      Auth.extractPathFromTCURL u.toList = u.toList) ∧
    Auth.IsAuthorized ⟨[]⟩ t = false := by
  refine ⟨?_, ?_, ?_, rfl⟩
  · simp only [Auth.IsAuthorized, List.any_eq_true]
  · intro s1 s2 h1 h2 rest hs1 hs2 hh1 hh2 hrr
    have key : ∀ (s h : String), Auth.validSchemeList s.toList = true →
        (∀ x ∈ h.toList, Auth.plainHostChar x = true) →
        Auth.extractPathFromTCURL (s ++ "://" ++ h ++ "/" ++ rest).toList =
          '/' :: rest.toList := by
      intro s h hsv hhv
      have hdecomp : (s ++ "://" ++ h ++ "/" ++ rest).toList =
          s.toList ++ ':' :: '/' :: '/' :: (h.toList ++ '/' :: rest.toList) := by
        simp [String.toList, String.data_append]
      rw [hdecomp]
      unfold Auth.extractPathFromTCURL
      rw [urlParsePath_structured s.toList h.toList rest.toList hsv hhv hrr]
    simp only [Auth.IsAuthorized]
    rw [key s1 h1 hs1 hh1, key s2 h2 hs2 hh2]
  · intro u hu
    unfold Auth.extractPathFromTCURL
    rw [urlParsePath_pathShaped u.toList hu]

/-- Witness for C4: scheme and host vary, the authorization answer does
not; a bare path target passes through `extractPathFromTCURL`
unchanged. -/
theorem isAuthorized_spec_witness :
    Auth.IsAuthorized ⟨["/live/{app}/{username}"]⟩
        ("rtmp" ++ "://" ++ "host" ++ "/" ++ "live/test/johndoe") =
      Auth.IsAuthorized ⟨["/live/{app}/{username}"]⟩
        ("http" ++ "://" ++ "other" ++ "/" ++ "live/test/johndoe") ∧
    Auth.extractPathFromTCURL "/live/test/johndoe".toList =
      "/live/test/johndoe".toList :=
  ⟨(isAuthorized_spec ⟨["/live/{app}/{username}"]⟩ "x").2.1 "rtmp" "http" "host"
      "other" "live/test/johndoe" (by decide) (by decide) (by decide) (by decide)
      (by decide),
   (isAuthorized_spec ⟨["/live/{app}/{username}"]⟩ "x").2.2.1 "/live/test/johndoe"
      (by decide)⟩


/-- Helper for C3: a successful greedy capture search returns a width
between 1 and the bound, together with a successful continuation. -/
theorem capSearch_spec (f : Nat → Option (List (String × String))) :
    ∀ m k vs, Auth.capSearch f m = some (k, vs) → 1 ≤ k ∧ k ≤ m ∧ f k = some vs := by
  intro m
  induction m with
  | zero => intro k vs h; simp [Auth.capSearch] at h
  | succ n ih =>
    intro k vs h
    simp only [Auth.capSearch] at h
    cases hf : f (n + 1) with
    | some vs2 =>
      rw [hf] at h
      obtain ⟨rfl, rfl⟩ : n + 1 = k ∧ vs2 = vs := by
        simpa using h
      exact ⟨by omega, le_refl _, hf⟩
    | none =>
      rw [hf] at h
      obtain ⟨h1, h2, h3⟩ := ih k vs h
      exact ⟨h1, by omega, h3⟩

/-- Helper for C3: every value captured by a successful match is a
nonempty run of non-`/` characters. -/
theorem matchToks_sound :
    ∀ (toks : List Auth.PatTok) (s : List Char) (vars : List (String × String)),
      Auth.matchToks toks s = some vars →
      ∀ nm v, (nm, v) ∈ vars → v ≠ "" ∧ ∀ c ∈ v.toList, c ≠ '/' := by
  intro toks
  induction toks with
  | nil =>
    intro s vars h nm v hmem
    by_cases hs : s.isEmpty <;> simp [Auth.matchToks, hs] at h
    subst h
    cases hmem
  | cons tok ts ih =>
    cases tok with
    | lit c =>
      intro s vars h nm v hmem
      cases s with
      | nil => simp [Auth.matchToks] at h
      | cons c2 s2 =>
        simp only [Auth.matchToks] at h
        by_cases hc : c2 = c
        · rw [if_pos hc] at h
          exact ih s2 vars h nm v hmem
        · rw [if_neg hc] at h
          cases h
    | cap nmc =>
      intro s vars h nm v hmem
      simp only [Auth.matchToks] at h
      cases hcs : Auth.capSearch (fun k => Auth.matchToks ts (s.drop k))
          ((s.takeWhile fun c => decide (c ≠ '/')).length) with
      | none => rw [hcs] at h; cases h
      | some kvs =>
        obtain ⟨k, vs⟩ := kvs
        rw [hcs] at h
        obtain ⟨hk1, hk2, hf⟩ := capSearch_spec _ _ _ _ hcs
        have hvars : (nmc, String.mk (s.take k)) :: vs = vars := by simpa using h
        subst hvars
        rcases List.mem_cons.mp hmem with hhead | htail
        · injection hhead with h1 h2
          subst h1
          subst h2
          have htw : (s.takeWhile fun c => decide (c ≠ '/')).length ≤ s.length :=
            List.Sublist.length_le (List.takeWhile_sublist _)
          have hsk : (s.take k).length = k := by
            rw [List.length_take]
            omega
          constructor
          · intro hempty
            have : s.take k = [] := congrArg String.data hempty
            rw [this] at hsk
            simp at hsk
            omega
          · intro c hcmem
            have hsub : s.take k =
                (s.takeWhile fun c => decide (c ≠ '/')).take k := by
              conv_lhs => rw [← List.takeWhile_append_dropWhile
                (fun c => decide (c ≠ '/')) s]
              rw [List.take_append_eq_append_take]
              have : k - (s.takeWhile fun c => decide (c ≠ '/')).length = 0 := by omega
              rw [this]
              simp
            rw [String.toList] at hcmem
            have : c ∈ (s.takeWhile fun c => decide (c ≠ '/')) := by
              rw [hsub] at hcmem
              exact List.take_subset _ _ hcmem
            simpa using List.mem_takeWhile_imp this
        · exact ih (s.drop k) vs hf nm v htail

/-- Helper for C3: a `findSome?` returns `some b` exactly when the list
splits as failing elements, then the first succeeding element. -/
theorem findSome?_eq_some_first {α β : Type} (f : α → Option β) :
    ∀ (l : List α) (b : β), l.findSome? f = some b ↔
      ∃ l1 x l2, l = l1 ++ x :: l2 ∧ f x = some b ∧ ∀ y ∈ l1, f y = none := by
  intro l
  induction l with
  | nil =>
    intro b
    constructor
    · intro h; simp [List.findSome?] at h
    · rintro ⟨l1, x, l2, heq, -, -⟩
      exact absurd heq.symm (List.append_ne_nil_of_right_ne_nil l1 (by simp))
  | cons x l ih =>
    intro b
    rw [List.findSome?_cons]
    cases hf : f x with
    | some b2 =>
      constructor
      · intro h
        refine ⟨[], x, l, rfl, ?_, by simp⟩
        rw [hf]
        exact h
      · rintro ⟨l1, y, l2, heq, hfy, hnone⟩
        cases l1 with
        | nil =>
          obtain ⟨rfl, rfl⟩ : x = y ∧ l = l2 := by simpa using heq
          rw [← hfy, hf]
        | cons z l1 =>
          obtain ⟨rfl, -⟩ : x = z ∧ l = l1 ++ y :: l2 := by simpa using heq
          exact absurd hf (by rw [hnone x (by simp)]; simp)
    | none =>
      rw [ih b]
      constructor
      · rintro ⟨l1, y, l2, rfl, hfy, hnone⟩
        refine ⟨x :: l1, y, l2, rfl, hfy, ?_⟩
        intro z hz
        rcases List.mem_cons.mp hz with rfl | hz2
        · exact hf
        · exact hnone z hz2
      · rintro ⟨l1, y, l2, heq, hfy, hnone⟩
        cases l1 with
        | nil =>
          obtain ⟨rfl, -⟩ : x = y ∧ l = l2 := by simpa using heq
          rw [hf] at hfy
          cases hfy
        | cons z l1 =>
          obtain ⟨rfl, rfl⟩ : x = z ∧ l = l1 ++ y :: l2 := by simpa using heq
          exact ⟨l1, y, l2, rfl, hfy, fun w hw => hnone w (List.mem_cons_of_mem _ hw)⟩

/-- C3: `ExtractVariables` tries the configured patterns in
configuration order against the path component of the target and
returns the named captures of the first pattern that matches (every
earlier pattern fails); each captured value is a nonempty run of
non-`/` characters (a `\x7bname\x7d` placeholder matches one-or-more
non-`/` characters, all other pattern characters match literally); and
on the spec's example, pattern `/live/\x7bapp\x7d/\x7busername\x7d`
against `rtmp://host/live/test/johndoe` yields
`app = test`, `username = johndoe`, success. -/
theorem extractVariables_spec (a : Auth.Authorizer) (t : String) :
    (∀ vars, Auth.ExtractVariables a t = some vars ↔
      ∃ pre pat suf, a.authorizedPatterns = pre ++ pat :: suf ∧
        Auth.matchPatternAgainst pat (Auth.extractPathFromTCURL t.toList) = some vars ∧
        ∀ q ∈ pre, Auth.matchPatternAgainst q (Auth.extractPathFromTCURL t.toList) = none) ∧
    (∀ vars nm v, Auth.ExtractVariables a t = some vars → (nm, v) ∈ vars →
      v ≠ "" ∧ ∀ c ∈ v.toList, c ≠ '/') ∧
    Auth.ExtractVariables ⟨["/live/{app}/{username}"]⟩ "rtmp://host/live/test/johndoe" =
      some [("app", "test"), ("username", "johndoe")] := by
  refine ⟨?_, ?_, by decide⟩
  · intro vars
    simp only [Auth.ExtractVariables]
    exact findSome?_eq_some_first _ a.authorizedPatterns vars
  · intro vars nm v h hmem
    simp only [Auth.ExtractVariables] at h
    obtain ⟨l1, pat, l2, -, hpat, -⟩ :=
      (findSome?_eq_some_first _ a.authorizedPatterns vars).mp h
    simp only [Auth.matchPatternAgainst, Auth.extractVariables] at hpat
    by_cases hnd : (Auth.patternToRegex pat).2.Nodup
    · rw [if_pos hnd] at hpat
      exact matchToks_sound _ _ _ hpat nm v hmem
    · rw [if_neg hnd] at hpat
      cases hpat

/-- Witness for C3: the spec's example evaluated through the theorem. -/
theorem extractVariables_spec_witness :
    Auth.ExtractVariables ⟨["/live/{app}/{username}"]⟩ "rtmp://host/live/test/johndoe" =
      some [("app", "test"), ("username", "johndoe")] :=
  (extractVariables_spec ⟨["/live/{app}/{username}"]⟩ "rtmp://host/live/test/johndoe").2.2

/-- C6: `GetOrCreateStream` returns a live entry unchanged and spawns
nothing; evicts a dead entry and stores a freshly created stream (active,
keyed by the username); and on creation failure returns the error with
no registry entry left for the username, every other identity's entry
untouched, and nothing spawned. -/
theorem getOrCreateStream_spec (reg : StreamM.Registry) (u : String)
    (cr : Except String Nat) :
    (∀ sp, StreamM.load reg u = some sp → sp.active = true →
      StreamM.GetOrCreateStream reg u cr = (.ok sp, reg, 0)) ∧
    (∀ sp sid, StreamM.load reg u = some sp → sp.active = false → cr = .ok sid →
      StreamM.GetOrCreateStream reg u cr =
        (.ok ⟨u, true, sid⟩,
         StreamM.store (StreamM.deleteEntry reg u) u ⟨u, true, sid⟩, 1)) ∧
    (∀ sid, StreamM.load reg u = none → cr = .ok sid →
      StreamM.GetOrCreateStream reg u cr =
        (.ok ⟨u, true, sid⟩, StreamM.store reg u ⟨u, true, sid⟩, 1)) ∧
    (∀ e, cr = .error e → (∀ sp, StreamM.load reg u = some sp → sp.active = false) →
      (StreamM.GetOrCreateStream reg u cr).1 = .error e ∧
      (StreamM.GetOrCreateStream reg u cr).2.1 u = none ∧
      (∀ v, v ≠ u → (StreamM.GetOrCreateStream reg u cr).2.1 v = reg v) ∧
      (StreamM.GetOrCreateStream reg u cr).2.2 = 0) := by
  refine ⟨?_, ?_, ?_, ?_⟩
  · intro sp hload hact
    simp [StreamM.GetOrCreateStream, hload, hact]
  · intro sp sid hload hact hcr
    simp [StreamM.GetOrCreateStream, hload, hact, hcr, StreamM.createNewStream]
  · intro sid hload hcr
    simp [StreamM.GetOrCreateStream, hload, hcr, StreamM.createNewStream]
  · intro e hcr hdead
    cases hload : StreamM.load reg u with
    | some sp =>
      have hact : sp.active = false := hdead sp hload
      simp [StreamM.GetOrCreateStream, hload, hact, hcr, StreamM.createNewStream,
        StreamM.deleteEntry]
      intro v hv
      simp [hv]
    | none =>
      simp [StreamM.GetOrCreateStream, hload, hcr, StreamM.createNewStream]
      exact hload

/-- Witness for C6: a live entry is returned as-is with nothing spawned,
and a failed creation on an empty registry leaves no entry. -/
theorem getOrCreateStream_spec_witness :
    StreamM.GetOrCreateStream
        (fun v => if v = "alice" then some ⟨"alice", true, 7⟩ else none) "alice" (.ok 3) =
      (.ok ⟨"alice", true, 7⟩,
       fun v => if v = "alice" then some ⟨"alice", true, 7⟩ else none, 0) ∧
    (StreamM.GetOrCreateStream (fun _ => none) "bob" (.error "boom")).1 = .error "boom" :=
  ⟨(getOrCreateStream_spec (fun v => if v = "alice" then some ⟨"alice", true, 7⟩ else none)
      "alice" (.ok 3)).1 ⟨"alice", true, 7⟩ (by simp [StreamM.load]) rfl,
   ((getOrCreateStream_spec (fun _ => none) "bob" (.error "boom")).2.2.2 "boom" rfl
      (fun sp h => by cases h)).1⟩

/-- Helper for C7: `Stop` on an already-stopped stream returns at once
with the state unchanged. -/
theorem stop_inactive (s : StreamM.StopState) (h : s.active = false) :
    StreamM.Stop s = (false, s) := by
  cases s
  simp only at h
  simp [StreamM.Stop, h]

/-- Helper for C7: any number of `Stop` calls on an already-stopped
stream performs no teardown and leaves the state unchanged. -/
theorem stopTrace_inactive (n : Nat) :
    ∀ s : StreamM.StopState, s.active = false →
      StreamM.stopTrace n s = (List.replicate n false, s) := by
  induction n with
  | zero => intro s h; rfl
  | succ m ih =>
    intro s h
    simp only [StreamM.stopTrace, stop_inactive s h, ih s h, List.replicate]

/-- C7: across any sequence of `Stop` calls (in the linearization order
of the atomic `Swap`), the teardown actions — closing the input sink,
cancelling the subprocess context, the bounded wait with forced kill,
and scheduling the output-directory removal — are each performed exactly
once when the stream was active and never otherwise, always by the
single call that flips the active flag from true to false
(`(Stop s).1 = s.active`); a call observing the flag already false
returns immediately with no action. -/
theorem stop_teardown_once (n : Nat) (s : StreamM.StopState) :
    (StreamM.stopTrace n s).1.count true ≤ 1 ∧
    (StreamM.stopTrace n s).1.count true = (if s.active = true ∧ 0 < n then 1 else 0) ∧
    (StreamM.stopTrace n s).2.closes = s.closes + (StreamM.stopTrace n s).1.count true ∧
    (StreamM.stopTrace n s).2.cancels = s.cancels + (StreamM.stopTrace n s).1.count true ∧
    (StreamM.stopTrace n s).2.waitsBounded =
      s.waitsBounded + (StreamM.stopTrace n s).1.count true ∧
    (StreamM.stopTrace n s).2.removalsScheduled =
      s.removalsScheduled + (StreamM.stopTrace n s).1.count true ∧
    (StreamM.Stop s).1 = s.active ∧
    (s.active = false → StreamM.Stop s = (false, s)) := by
  have hcount : ∀ m, (List.replicate m false).count true = 0 := by
    intro m
    simp [List.count_replicate]
  cases n with
  | zero =>
    cases hact : s.active
    · simp [StreamM.stopTrace, stop_inactive s hact, hact]
    · simp [StreamM.stopTrace, StreamM.Stop, hact]
  | succ m =>
    cases hact : s.active
    · rw [stopTrace_inactive (m + 1) s hact]
      simp [hcount, hact, stop_inactive s hact]
    · have hstop : StreamM.Stop s =
          (true, { active := false, closes := s.closes + 1, cancels := s.cancels + 1,
                   waitsBounded := s.waitsBounded + 1,
                   removalsScheduled := s.removalsScheduled + 1 }) := by
        simp [StreamM.Stop, hact]
      have htail := stopTrace_inactive m
        { active := false, closes := s.closes + 1, cancels := s.cancels + 1,
          waitsBounded := s.waitsBounded + 1,
          removalsScheduled := s.removalsScheduled + 1 } rfl
      simp [StreamM.stopTrace, hstop, htail, hcount, hact]

/-- Witness for C7: two stop calls on an active stream perform one
teardown; a stop on a stopped stream is a no-op. -/
theorem stop_teardown_once_witness :
    (StreamM.stopTrace 2 ⟨true, 0, 0, 0, 0⟩).1.count true ≤ 1 ∧
    StreamM.Stop ⟨false, 1, 1, 1, 1⟩ = (false, ⟨false, 1, 1, 1, 1⟩) :=
  ⟨(stop_teardown_once 2 ⟨true, 0, 0, 0, 0⟩).1,
   (stop_teardown_once 0 ⟨false, 1, 1, 1, 1⟩).2.2.2.2.2.2.2 rfl⟩

/-- C9: the spec claims concurrent `GetOrCreateStream` calls for one
identity spawn exactly one subprocess.  The code's load-check/create/
store sequence is not atomic (only the individual `sync.Map` operations
are): under the schedule where both threads `Load` before either
creates, each thread misses, creates, and stores — two subprocesses are
spawned (the second `Store` overwrites the first entry, leaking the
first process).  Both calls complete, yet `spawned = 2 ≠ 1`. -/
theorem getOrCreateStream_race_two_spawns :
    StreamM.runSchedule StreamM.c9Init [false, true, false, false, true, true] =
      { entry := some (1, true), spawned := 2, nextSid := 2,
        pc1 := .finished 0, pc2 := .finished 1 } ∧
    (StreamM.runSchedule StreamM.c9Init [false, true, false, false, true, true]).spawned
      ≠ 1 := by
  decide
